import Mathlib

/-!
Verification of the key-resolution and message-formatting engine of the
text-intl repository (src/index.js, src/react.jsx).

The JavaScript module state and its operations are shallowly embedded:
JS objects used as string-keyed dictionaries become association lists,
`undefined`-propagating lookups (`a?.[b]?.[c]`) become `Option`-valued
lookups, JS string truthiness (`if (x)` on a string-or-undefined value)
becomes `truthyStr`, and thrown configuration errors become `Except`.
The external `intl-messageformat` package is modelled from the spec
(section 4.2); everything else is translated directly from the source.
-/

namespace TextIntl

/-- Lookup in a JS object viewed as an association list; `none` is JS
`undefined`.  Later bindings never shadow earlier ones because the
extractor-produced JSON objects have unique keys; lookup takes the first
binding, matching JS property access on such objects. -/
def objGet {α : Type} : List (String × α) → String → Option α
  | [], _ => none
  | (k, v) :: rest, key => if k = key then some v else objGet rest key

/-- The nested message / meta store shape
`\x7b locale: \x7b namespace: \x7b key: string \x7d \x7d \x7d`. -/
abbrev Store : Type := List (String × List (String × List (String × String)))

/-- `store[loc]?.[ns]?.[key]` with `undefined` propagation. -/
def get3 (s : Store) (loc ns key : String) : Option String :=
  (objGet s loc).bind fun o => (objGet o ns).bind fun o2 => objGet o2 key

/-- JS truthiness of a string-or-undefined value: `undefined` and the
empty string are falsy. -/
def truthyStr : Option String → Bool
  | some s => s ≠ ""
  | none => false

/-- The module-level mutable state of src/index.js: `locale`,
`fallbackLocale`, `messages`, `meta`. -/
structure I18nState where
  locale : String
  fallbackLocale : Option String
  messages : Store
  meta : Store
deriving DecidableEq

instance {ε α : Type} [DecidableEq ε] [DecidableEq α] : DecidableEq (Except ε α) := fun a b =>
  match a, b with
  | Except.ok x, Except.ok y =>
    if h : x = y then Decidable.isTrue (by rw [h]) else
      Decidable.isFalse (by intro hc; cases hc; exact h rfl)
  | Except.error x, Except.error y =>
    if h : x = y then Decidable.isTrue (by rw [h]) else
      Decidable.isFalse (by intro hc; cases hc; exact h rfl)
  | Except.ok _, Except.error _ => Decidable.isFalse (by intro hc; cases hc)
  | Except.error _, Except.ok _ => Decidable.isFalse (by intro hc; cases hc)

/-- One locale's lookup step of `t` (src/index.js lines 80-99, the same
shape is used for the current locale and for the fallback locale):
`hash = meta[loc]?.[ns]?.[text]`; if `hash` is truthy the translation is
`messages[loc]?.[ns]?.[hash]`, otherwise the direct key
`messages[loc]?.[ns]?.[text]` is used. -/
def lookupIn (messages meta : Store) (loc ns text : String) : Option String :=
  match get3 meta loc ns text with
  | some h => if h ≠ "" then get3 messages loc ns h else get3 messages loc ns text
  | none => get3 messages loc ns text

/-- Key resolution of `t` (src/index.js lines 76-109): current-locale
lookup, then — only when the result is falsy and a fallback locale is
configured — the fallback-locale lookup, then `translated || text`.
The source's `typeof translated !== 'string'` guard is vacuous here
because the embedded store holds only strings. -/
def resolveTemplate (st : I18nState) (text ns : String) : String :=
  let cur := lookupIn st.messages st.meta st.locale ns text
  let tr :=
    if !truthyStr cur && truthyStr st.fallbackLocale then
      lookupIn st.messages st.meta (st.fallbackLocale.getD "") ns text
    else cur
  match tr with
  | some s => if s = "" then text else s
  | none => text

/-- The value `t` would resolve when the current-locale lookup is skipped
entirely: the fallback-locale lookup result if a fallback locale is
configured (with `|| text` applied), otherwise the lookup text itself. -/
def fallbackResolve (st : I18nState) (text ns : String) : String :=
  if truthyStr st.fallbackLocale then
    match lookupIn st.messages st.meta (st.fallbackLocale.getD "") ns text with
    | some s => if s = "" then text else s
    | none => text
  else text

/-- `getLocale` (src/index.js lines 144-146). -/
def getLocale (st : I18nState) : String :=
  st.locale

/-- `setLocale` (src/index.js lines 151-159): rejects a non-string or
empty argument, then rejects a locale with no entry in `messages`;
otherwise updates the current locale.  Thrown `I18nConfigError`s are
embedded as `Except.error` with the error message. -/
def setLocale (st : I18nState) (newLocale : String) : Except String I18nState :=
  if newLocale = "" then
    Except.error "setLocale() requires a non-empty string"
  else
    match objGet st.messages newLocale with
    | none => Except.error ("Locale \"" ++ newLocale ++ "\" is not available in messages")
    | some _ => Except.ok { st with locale := newLocale }

/-- The module state after a `setLocale` call observed by later reads: on
a thrown error the mutable `locale` variable was never assigned, so the
prior state persists. -/
def runSetLocale (st : I18nState) (newLocale : String) : I18nState :=
  match setLocale st newLocale with
  | Except.ok st2 => st2
  | Except.error _ => st

/-- The JS regex class `\s` restricted to its ASCII members, which are
the whitespace characters that can occur in the repository's templates. -/
def isJSWs (c : Char) : Bool :=
  c = ' ' || c = '\t' || c = '\n' || c = '\r' || c = '\x0b' || c = '\x0c'

/-- The JS regex class `\w`: ASCII letters, digits and underscore. -/
def isWordChar (c : Char) : Bool :=
  c.isAlphanum || c = '_'

/-- The six ICU type keywords of the detection regex in
src/index.js line 25, in the regex's alternation order. -/
def icuKeywords : List (List Char) :=
  ["plural".data, "select".data, "selectordinal".data, "number".data,
   "date".data, "time".data]

/-- Anchored match of the regex
`\x7b\s*\w+\s*,\s*(plural|select|selectordinal|number|date|time)` at the
head of the input, following the backtracking-free reading forced by the
disjointness of `\s`, `\w`, `,`: an opening brace, optional whitespace, a
nonempty word, optional whitespace, a comma, optional whitespace, one of
the keywords. -/
def matchICUAt : List Char → Bool
  | [] => false
  | c :: rest =>
    if c = '{' then
      let r1 := rest.dropWhile isJSWs
      let w := r1.takeWhile isWordChar
      if w.isEmpty then false
      else
        match (r1.drop w.length).dropWhile isJSWs with
        | [] => false
        | d :: r2 =>
          if d = ',' then icuKeywords.any fun k => k.isPrefixOf (r2.dropWhile isJSWs)
          else false
    else false

/-- Unanchored regex search: does the pattern match at some position? -/
def containsICUPat : List Char → Bool
  | [] => false
  | c :: cs => matchICUAt (c :: cs) || containsICUPat cs

/-- `isICUMessage` (src/index.js lines 20-26): a string is treated as ICU
iff the detection regex finds a match.  The `typeof text !== 'string'`
guard is vacuous since the embedding passes only strings. -/
def isICUMessage (text : String) : Bool :=
  containsICUPat text.data

/-- A JS value supplied in the `values` argument of the core `t`:
a string, a number, or anything else (object, boolean, function …) — the
code only ever distinguishes strings and numbers from the rest. -/
inductive JSVal where
  | str : String → JSVal
  | num : Int → JSVal
  | other : JSVal
deriving DecidableEq

/-- The GetSubstitution expansion of `$`-sequences that JS
`String.prototype.replace` applies to a string replacement value.  With
a string search pattern there are no capture groups, so: `$$` yields a
dollar, `$&` the matched substring, `$` + backquote the part of the
subject before the match, `$'` the part after it, and every other
`$`-sequence (including `$1`, `$<`, or a trailing `$`) is literal text.
The backquote and apostrophe characters are written by code point. -/
def getSubstitution (matched before after : List Char) : List Char → List Char
  | [] => []
  | '$' :: c :: rest =>
    if c = '$' then '$' :: getSubstitution matched before after rest
    else if c = '&' then matched ++ getSubstitution matched before after rest
    else if c = Char.ofNat 96 then before ++ getSubstitution matched before after rest
    else if c = Char.ofNat 39 then after ++ getSubstitution matched before after rest
    else '$' :: getSubstitution matched before after (c :: rest)
  | c :: rest => c :: getSubstitution matched before after rest

/-- Replace the first occurrence of the (nonempty) pattern `pat` in the
input, as JS `String.prototype.replace` with a string pattern does: the
text before the match, then the `GetSubstitution`-expanded replacement,
then the text after the match; the accumulator carries the scanned
prefix (reversed) so the expansion can see the text before the match.
With no match the input is returned unchanged. -/
def replFirstAux (pat repl : List Char) : List Char → List Char → List Char
  | acc, [] => acc.reverse
  | acc, c :: rest =>
    if pat.isPrefixOf (c :: rest) then
      acc.reverse ++ getSubstitution pat acc.reverse ((c :: rest).drop pat.length) repl
        ++ (c :: rest).drop pat.length
    else replFirstAux pat repl (c :: acc) rest

/-- String-level wrapper for `replFirstAux`. -/
def replaceFirst (s pat repl : String) : String :=
  ⟨replFirstAux pat.data repl.data [] s.data⟩

/-- Does `pat` occur as a contiguous substring? (Scanning form matching
`replFirstAux`.) -/
def containsPat (pat : List Char) : List Char → Bool
  | [] => pat.isPrefixOf ([] : List Char)
  | c :: rest => pat.isPrefixOf (c :: rest) || containsPat pat rest

/-- JS `String(value)` for the scalar values the substitution loop
accepts. -/
def scalarToString : JSVal → Option String
  | JSVal.str s => some s
  | JSVal.num n => some (toString n)
  | JSVal.other => none

/-- The non-ICU variable-substitution loop (src/index.js lines 129-136,
and identically src/react.jsx lines 126-134): iterate the keys of
`values` in insertion order and, for string or number values, replace the
first occurrence of `\x7bkey\x7d` in the accumulated string. -/
def substituteVars (tpl : String) (values : List (String × JSVal)) : String :=
  values.foldl
    (fun acc kv =>
      match scalarToString kv.2 with
      | some v => replaceFirst acc ("\x7b" ++ kv.1 ++ "\x7d") v
      | none => acc)
    tpl

/-- Drop leading ICU pattern whitespace. -/
def skipWs (s : List Char) : List Char :=
  s.dropWhile isJSWs

/-- Parse a nonempty run of decimal digits. -/
def parseDigits (s : List Char) : Option (Nat × List Char) :=
  let ds := s.takeWhile Char.isDigit
  if ds.isEmpty then none
  else some (ds.foldl (fun a c => a * 10 + (c.toNat - 48)) 0, s.drop ds.length)

/-- Take characters up to the closing brace matching an already-consumed
opening brace, tracking nested brace depth; `none` when the input ends
before the braces balance. -/
def takeBalanced : Nat → List Char → Option (List Char × List Char)
  | _, [] => none
  | 0, '}' :: rest => some ([], rest)
  | d + 1, '}' :: rest => (takeBalanced d rest).map fun br => ('}' :: br.1, br.2)
  | d, '{' :: rest => (takeBalanced (d + 1) rest).map fun br => ('{' :: br.1, br.2)
  | d, c :: rest => (takeBalanced d rest).map fun br => (c :: br.1, br.2)

/-- Modelled from the spec: the `offset:N` modifier of an ICU plural
(spec section 4.2), implemented by the external intl-messageformat
package, which is not part of this repository. -/
def parseOffset (s : List Char) : Except String (Int × List Char) :=
  if "offset:".data.isPrefixOf s then
    match parseDigits (skipWs (s.drop 7)) with
    | some nr => Except.ok (Int.ofNat nr.1, nr.2)
    | none => Except.error "icu: expected number after offset"
  else Except.ok (0, s)

/-- Modelled from the spec: the arm list of an ICU plural/select
construct — a sequence of `=N` or keyword selectors, each followed by a
brace-delimited body, closed by a brace (spec section 4.2); implemented
by the external intl-messageformat package. -/
def parseArms : Nat → List Char →
    Except String (List ((Int ⊕ String) × List Char) × List Char)
  | 0, _ => Except.error "icu: out of fuel"
  | fuel + 1, s =>
    match skipWs s with
    | [] => Except.error "icu: unterminated plural or select"
    | '}' :: rest => Except.ok ([], rest)
    | '=' :: rest =>
      match parseDigits rest with
      | none => Except.error "icu: malformed exact selector"
      | some nr =>
        match skipWs nr.2 with
        | '{' :: rest2 =>
          match takeBalanced 0 rest2 with
          | none => Except.error "icu: unbalanced braces"
          | some br =>
            match parseArms fuel br.2 with
            | Except.error e => Except.error e
            | Except.ok ar => Except.ok ((Sum.inl (Int.ofNat nr.1), br.1) :: ar.1, ar.2)
        | _ => Except.error "icu: expected arm body"
    | s2 =>
      let kw := s2.takeWhile isWordChar
      if kw.isEmpty then Except.error "icu: expected arm selector"
      else
        match skipWs (s2.drop kw.length) with
        | '{' :: rest2 =>
          match takeBalanced 0 rest2 with
          | none => Except.error "icu: unbalanced braces"
          | some br =>
            match parseArms fuel br.2 with
            | Except.error e => Except.error e
            | Except.ok ar => Except.ok ((Sum.inr (⟨kw⟩ : String), br.1) :: ar.1, ar.2)
        | _ => Except.error "icu: expected arm body"

/-- First arm whose selector is the exact number `n`. -/
def findExactArm : List ((Int ⊕ String) × List Char) → Int → Option (List Char)
  | [], _ => none
  | (Sum.inl m, b) :: rest, n => if m = n then some b else findExactArm rest n
  | (Sum.inr _, _) :: rest, n => findExactArm rest n

/-- First arm whose selector is the keyword `k`. -/
def findKeywordArm : List ((Int ⊕ String) × List Char) → String → Option (List Char)
  | [], _ => none
  | (Sum.inr s, b) :: rest, k => if s = k then some b else findKeywordArm rest k
  | (Sum.inl _, _) :: rest, k => findKeywordArm rest k

/-- Modelled from the spec: the locale-dependent CLDR cardinal plural
category provider used by the external intl-messageformat package.  For
English, integer 1 is category `one` and everything else `other`; the
other locales exercised by the repository (e.g. Korean, Japanese) use
only `other`. -/
def pluralCategory (locale : String) (n : Int) : String :=
  if locale = "en" then (if n = 1 then "one" else "other") else "other"

/-- Modelled from the spec: ICU plural arm choice — an exact `=N` arm is
matched against the unoffset value; otherwise the locale plural category
of the offset-shifted value selects a keyword arm, with `other` as the
final fallback (spec section 4.2). -/
def chooseArmPlural (locale : String) (arms : List ((Int ⊕ String) × List Char))
    (n off : Int) : Option (List Char) :=
  match findExactArm arms n with
  | some b => some b
  | none =>
    match findKeywordArm arms (pluralCategory locale (n - off)) with
    | some b => some b
    | none => findKeywordArm arms "other"

/-- Modelled from the spec: ICU select arm choice — exact keyword match,
falling back to the `other` arm (spec section 4.2). -/
def chooseArmSelect (arms : List ((Int ⊕ String) × List Char)) (v : String) :
    Option (List Char) :=
  match findKeywordArm arms v with
  | some b => some b
  | none => findKeywordArm arms "other"

/-- Modelled from the spec: the message-evaluation loop of the external
intl-messageformat package (spec section 4.2).  Literal text is copied;
`#` inside a plural arm renders the offset-shifted numeric argument;
`\x7bname\x7d` renders a primitive argument; `\x7bname, plural, …\x7d`
and `\x7bname, select, …\x7d` evaluate the chosen arm recursively; any
parse failure, missing or non-primitive value, or argument type outside
the spec's minimum contract is an error, which the caller catches.  The
fuel argument strictly exceeds the recursion depth ever reached, which is
bounded by twice the input length. -/
def evalSeq (locale : String) (values : List (String × JSVal)) :
    Nat → List Char → Option Int → Except String String
  | 0, _, _ => Except.error "icu: out of fuel"
  | fuel + 1, s, ctx =>
    match s with
    | [] => Except.ok ""
    | '#' :: rest =>
      match ctx with
      | some n => (evalSeq locale values fuel rest ctx).map fun r => toString n ++ r
      | none => (evalSeq locale values fuel rest ctx).map fun r => "#" ++ r
    | '{' :: rest =>
      let r1 := skipWs rest
      let nm := r1.takeWhile isWordChar
      if nm.isEmpty then Except.error "icu: expected argument name"
      else
        match skipWs (r1.drop nm.length) with
        | '}' :: r3 =>
          match objGet values ⟨nm⟩ with
          | some (JSVal.str v) =>
            (evalSeq locale values fuel r3 ctx).map fun r => v ++ r
          | some (JSVal.num n) =>
            (evalSeq locale values fuel r3 ctx).map fun r => toString n ++ r
          | some JSVal.other => Except.error "icu: argument value is not a primitive"
          | none => Except.error "icu: missing argument value"
        | ',' :: r3 =>
          let r4 := skipWs r3
          let ty := r4.takeWhile isWordChar
          let r5 := skipWs (r4.drop ty.length)
          if ty = "plural".data then
            match r5 with
            | ',' :: r6 =>
              match parseOffset (skipWs r6) with
              | Except.error e => Except.error e
              | Except.ok offr =>
                match parseArms fuel offr.2 with
                | Except.error e => Except.error e
                | Except.ok ar =>
                  match objGet values ⟨nm⟩ with
                  | some (JSVal.num n) =>
                    match chooseArmPlural locale ar.1 n offr.1 with
                    | none => Except.error "icu: no matching plural arm"
                    | some body =>
                      match evalSeq locale values fuel body (some (n - offr.1)) with
                      | Except.error e => Except.error e
                      | Except.ok inner =>
                        (evalSeq locale values fuel ar.2 ctx).map fun r => inner ++ r
                  | some _ => Except.error "icu: plural argument is not a number"
                  | none => Except.error "icu: missing argument value"
            | _ => Except.error "icu: expected comma after plural"
          else if ty = "select".data then
            match r5 with
            | ',' :: r6 =>
              match parseArms fuel (skipWs r6) with
              | Except.error e => Except.error e
              | Except.ok ar =>
                match objGet values ⟨nm⟩ with
                | some (JSVal.str v) =>
                  match chooseArmSelect ar.1 v with
                  | none => Except.error "icu: no matching select arm"
                  | some body =>
                    match evalSeq locale values fuel body ctx with
                    | Except.error e => Except.error e
                    | Except.ok inner =>
                      (evalSeq locale values fuel ar.2 ctx).map fun r => inner ++ r
                | some _ => Except.error "icu: select argument is not a string"
                | none => Except.error "icu: missing argument value"
            | _ => Except.error "icu: expected comma after select"
          else Except.error "icu: unsupported argument type"
        | _ => Except.error "icu: malformed argument"
    | c :: rest =>
      (evalSeq locale values fuel rest ctx).map fun r => ⟨c :: r.data⟩

/-- Modelled from the spec: `new IntlMessageFormat(template, locale)`
followed by `.format(values)` from the external intl-messageformat
package — evaluate the template against the locale's plural rules and
the substitution values, with any parse or evaluation failure surfaced
as an error value (the embedding of the thrown exception). -/
def formatICU (tpl : String) (locale : String) (values : List (String × JSVal)) :
    Except String String :=
  evalSeq locale values ((tpl.length + 2) * (tpl.length + 2)) tpl.data none

/-- The core translate `t` (src/index.js lines 76-139): resolve the
template, then either evaluate it as ICU (returning the unevaluated
template when the formatter throws, lines 112-126) or run the plain
variable-substitution loop.  `values` is optional in JS; an absent
`values` and an empty object behave identically in both branches, so it
is embedded as a possibly-empty list. -/
def coreT (st : I18nState) (text : String) (values : List (String × JSVal))
    (ns : String := "common") : String :=
  let translated := resolveTemplate st text ns
  if isICUMessage translated then
    match formatICU translated st.locale values with
    | Except.ok s => s
    | Except.error _ => translated
  else substituteVars translated values

/-- A JS value supplied to the react adapter's `t`: a string, a number,
or a handler function.  Handlers are caller-supplied JS functions; they
are embedded over an abstract node type `ν` as functions from an argument
and an optional second (locale) argument — `none` models a call that
passes no second argument — to a node. -/
inductive TagVal (ν : Type) where
  | str : String → TagVal ν
  | num : Int → TagVal ν
  | fn : (ν → Option String → ν) → TagVal ν

/-- The `typeof x === "function"` test on a possibly-absent value
(src/react.jsx lines 85-99). -/
def asHandler {ν : Type} : Option (TagVal ν) → Option (ν → Option String → ν)
  | some (TagVal.fn f) => some f
  | _ => none

/-- The `<\/\1>` tail of the tag regex: expects a literal `</`, the
captured name, and `>`; returns the input after it. -/
def closeTagAt (nm : List Char) : List Char → Option (List Char)
  | c2 :: c3 :: rest3 =>
    if c2 = '<' then
      if c3 = '/' then
        if nm.isPrefixOf rest3 then
          match rest3.drop nm.length with
          | c4 :: rest4 => if c4 = '>' then some rest4 else none
          | [] => none
        else none
      else none
    else none
  | _ => none

/-- After `<name>`, capture the maximal `[^<]*` content and require the
matching close tag; returns the content and the input after the match. -/
def contentAt (nm : List Char) (rest2 : List Char) : Option (String × List Char) :=
  let content := rest2.takeWhile (fun c => c != '<')
  (closeTagAt nm (rest2.drop content.length)).map fun rest4 => (⟨content⟩, rest4)

/-- Anchored match of the tag regex `<(\w+)>([^<]*)<\/\1>`
(src/react.jsx line 59) at the head of the input.  The greedy `\w+` and
`[^<]*` runs admit no backtracking because each must be followed by a
character outside its class, so the match is the deterministic maximal
one; returns the captured name, the content, and the input after the
match. -/
def matchTagAt : List Char → Option (String × String × List Char)
  | [] => none
  | c0 :: rest =>
    if c0 = '<' then
      let nm := rest.takeWhile isWordChar
      if nm.isEmpty then none
      else
        match rest.drop nm.length with
        | [] => none
        | c1 :: rest2 =>
          if c1 = '>' then (contentAt nm rest2).map fun cr => (⟨nm⟩, cr.1, cr.2)
          else none
    else none

/-- Leftmost tag-regex match: try each start position from the left, as
`RegExp.prototype.exec` does; the accumulator carries the text already
scanned (in reverse). -/
def findTagAux : List Char → List Char → Option (List Char × String × String × List Char)
  | _, [] => none
  | acc, c :: cs =>
    match matchTagAt (c :: cs) with
    | some r => some (acc.reverse, r.1, r.2.1, r.2.2)
    | none => findTagAux (c :: acc) cs

/-- First tag-regex match in the input: the text before the match, the
tag name, the content, and the text after the match. -/
def findTag (s : List Char) : Option (List Char × String × String × List Char) :=
  findTagAux [] s

/-- The content-is-a-single-placeholder test `^\{(\w+)\}$`
(src/react.jsx line 72). -/
def isVarRef : List Char → Option String
  | '{' :: rest =>
    let w := rest.takeWhile isWordChar
    if w.isEmpty then none
    else
      match rest.drop w.length with
      | ['}'] => some ⟨w⟩
      | _ => none
  | _ => none

/-- How the react adapter turns strings and JS values into rendered
nodes: `strNode` embeds a plain string, `valNode` embeds a
possibly-undefined value read from `values` (src/react.jsx line 78). -/
structure TagCtx (ν : Type) where
  strNode : String → ν
  valNode : Option (TagVal ν) → ν

/-- The `processedContent` computation (src/react.jsx lines 71-79): when
the content is exactly one `\x7bvarName\x7d` placeholder and a `values`
object was supplied, the value `values[varName]` replaces the content;
otherwise the content string itself is used. -/
def processedContentOf {ν : Type} (ctx : TagCtx ν)
    (values : Option (List (String × TagVal ν))) (content : String) : ν :=
  match isVarRef content.data, values with
  | some w, some vs => ctx.valNode (objGet vs w)
  | _, _ => ctx.strNode content

/-- The inline-handler resolution `values && values[tagName]` followed by
the function test (src/react.jsx lines 82, 85-86). -/
def inlineHandlerOf {ν : Type} (values : Option (List (String × TagVal ν)))
    (name : String) : Option (ν → Option String → ν) :=
  match values with
  | some vs => asHandler (objGet vs name)
  | none => none

/-- The per-match handler dispatch (src/react.jsx lines 81-107): with
both an inline and a global handler the global one is applied first —
with the locale as second argument — and the inline one wraps the result
(called with no second argument); with exactly one handler it is applied
directly with the locale; with none, the full matched text is kept as a
plain string part.  The boolean is this match's contribution to
`hasReplacements`. -/
def dispatchTag {ν : Type} (inline global : Option (ν → Option String → ν))
    (pc : ν) (fullMatch locale : String) : (String ⊕ ν) × Bool :=
  match inline, global with
  | some ih, some gh => (Sum.inr (ih (gh pc (some locale)) none), true)
  | some ih, none => (Sum.inr (ih pc (some locale)), true)
  | none, some gh => (Sum.inr (gh pc (some locale)), true)
  | none, none => (Sum.inl fullMatch, false)

/-- The tag-pass scan loop (src/react.jsx lines 54-115): repeatedly find
the next tag match, keep the text before it (when nonempty) as a string
part, dispatch the match to handlers, and continue after it; the text
after the last match (when nonempty) is kept as a final string part.
The fuel exceeds the number of matches, which the wrapper `tagPass`
guarantees, so the fuel-exhaustion branch is never reached. -/
def tagLoopF {ν : Type} (ctx : TagCtx ν) (values : Option (List (String × TagVal ν)))
    (components : List (String × TagVal ν)) (locale : String) :
    Nat → List Char → List (String ⊕ ν) × Bool
  | 0, s => (if s.isEmpty then [] else [Sum.inl ⟨s⟩], false)
  | fuel + 1, s =>
    match findTag s with
    | none => (if s.isEmpty then [] else [Sum.inl ⟨s⟩], false)
    | some r =>
      let pre := r.1
      let name := r.2.1
      let content := r.2.2.1
      let rest := r.2.2.2
      let fullMatch : String := "<" ++ name ++ ">" ++ content ++ "</" ++ name ++ ">"
      let inl := inlineHandlerOf values name
      let glob := asHandler (objGet components name)
      let pc := processedContentOf ctx values content
      let pb := dispatchTag inl glob pc fullMatch locale
      let restRes := tagLoopF ctx values components locale fuel rest
      ((if pre.isEmpty then [] else [Sum.inl (⟨pre⟩ : String)]) ++ pb.1 :: restRes.1,
        pb.2 || restRes.2)

/-- The react adapter's tag pass on the translated string, producing the
`parts` array (strings and handler-produced nodes) and the
`hasReplacements` flag. -/
def tagPass {ν : Type} (ctx : TagCtx ν) (values : Option (List (String × TagVal ν)))
    (components : List (String × TagVal ν)) (locale : String) (s : String) :
    List (String ⊕ ν) × Bool :=
  tagLoopF ctx values components locale (s.data.length + 1) s.data

/-- The classification the spec describes: the template contains a
substring of the form opening brace, optional whitespace, nonempty
identifier, optional whitespace, comma, optional whitespace, one of the
six ICU keywords.  Stated from the spec's words, to be compared with the
source-derived `isICUMessage`. -/
def SpecICUPattern (text : String) : Prop :=
  ∃ (pre w1 ident w2 w3 kw post : List Char),
    text.data = pre ++ '{' :: (w1 ++ ident ++ w2 ++ ',' :: (w3 ++ kw ++ post)) ∧
    (∀ c ∈ w1, isJSWs c = true) ∧ ident ≠ [] ∧
    (∀ c ∈ ident, isWordChar c = true) ∧
    (∀ c ∈ w2, isJSWs c = true) ∧ (∀ c ∈ w3, isJSWs c = true) ∧
    kw ∈ icuKeywords

/-- No occurrence of `pat` starts strictly inside `a` when scanning
`a ++ pat ++ b`: the executable premise under which the first occurrence
of `pat` in `a ++ pat ++ b` is the explicit middle one. -/
def noEarly (pat b : List Char) : List Char → Bool
  | [] => true
  | c :: rest => !(pat.isPrefixOf ((c :: rest) ++ pat ++ b)) && noEarly pat b rest

/-- A state with no translations: every lookup misses. -/
def emptyState : I18nState :=
  ⟨"en", none, [], []⟩

/-- The offset-plural template of spec section 8. -/
def tplC5 : String :=
  "\x7bcount, plural, offset:1 =0 \x7bNobody\x7d =1 \x7bJust you\x7d one \x7bYou and # other\x7d other \x7bYou and # others\x7d\x7d"

/-- A store whose meta maps "greet" to hash "abcd1234" with translation
"Hello", alongside a conflicting direct key "greet" with translation
"DIRECT". -/
def stC1 : I18nState :=
  ⟨"en", none,
   [("en", [("common", [("abcd1234", "Hello"), ("greet", "DIRECT")])])],
   [("en", [("common", [("greet", "abcd1234")])])]⟩

/-- A store whose meta maps "greet" to hash "h1" for which no translation
exists, while a direct key "greet" holds "DIRECT". -/
def stC2 : I18nState :=
  ⟨"en", none,
   [("en", [("common", [("greet", "DIRECT")])])],
   [("en", [("common", [("greet", "h1")])])]⟩

/-- A store whose only entry is a malformed ICU template with unbalanced
braces under plural syntax. -/
def stC3 : I18nState :=
  ⟨"en", none,
   [("en", [("common", [("k", "\x7bcount, plural, one \x7b# item")])])],
   []⟩

/-- A message store that has an entry under the empty-string locale key. -/
def stC9 : I18nState :=
  ⟨"en", none, [("", []), ("en", [])], []⟩

/-- A store whose current-locale entry for "k" is the empty string while
the fallback locale has a real translation. -/
def stC10 : I18nState :=
  ⟨"en", some "ko",
   [("en", [("common", [("k", "")])]), ("ko", [("common", [("k", "annyeong")])])],
   []⟩

/-- When the meta store maps the lookup to a truthy hash, the one-locale
lookup step reads the message store at that hash, never at the direct
key. -/
theorem lookupIn_hash (messages meta : Store) (loc ns text h : String)
    (h1 : get3 meta loc ns text = some h) (h2 : h ≠ "") :
    lookupIn messages meta loc ns text = get3 messages loc ns h := by
  simp [lookupIn, h1, h2]

/-- When the current-locale lookup step produces a falsy value, `t`'s
resolution coincides with the pure fallback path. -/
theorem resolveTemplate_of_cur_falsy (st : I18nState) (text ns : String)
    (h : truthyStr (lookupIn st.messages st.meta st.locale ns text) = false) :
    resolveTemplate st text ns = fallbackResolve st text ns := by
  simp only [resolveTemplate, fallbackResolve, h, Bool.not_false, Bool.true_and]
  cases hfb : truthyStr st.fallbackLocale with
  | true => rfl
  | false =>
    cases hc : lookupIn st.messages st.meta st.locale ns text with
    | none => rfl
    | some s =>
      rw [hc] at h
      simp only [truthyStr, decide_eq_false_iff_not, Decidable.not_not] at h
      simp [h]

/-- Resolution never produces the empty string for a nonempty lookup:
its result is either a truthy (hence nonempty) store entry or the lookup
text itself. -/
theorem resolveTemplate_ne_empty (st : I18nState) (text ns : String) (h : text ≠ "") :
    resolveTemplate st text ns ≠ "" := by
  simp only [resolveTemplate]
  split
  · split
    · exact h
    · assumption
  · exact h

/-- Claim C1: when the current locale's meta maps the lookup to a hash
(a nonempty identifier) and the current-locale message store holds a
nonempty template under that hash, resolution returns that
hash-indirected template — for every store, so in particular also when a
direct key equal to the lookup holds a different template. -/
theorem claim_C1 (st : I18nState) (text ns h tpl : String)
    (h1 : get3 st.meta st.locale ns text = some h) (h2 : h ≠ "")
    (h3 : get3 st.messages st.locale ns h = some tpl) (h4 : tpl ≠ "") :
    resolveTemplate st text ns = tpl := by
  have hcur : lookupIn st.messages st.meta st.locale ns text = some tpl := by
    rw [lookupIn_hash st.messages st.meta st.locale ns text h h1 h2, h3]
  have ht : truthyStr (some tpl) = true := by
    simp [truthyStr, h4]
  simp [resolveTemplate, hcur, ht, h4]

/-- Claim C1 witness: in `stC1`, "greet" is meta-mapped to hash
"abcd1234" whose template is "Hello", while the direct key "greet" holds
the different template "DIRECT"; resolution returns "Hello". -/
theorem claim_C1_witness :
    get3 stC1.meta "en" "common" "greet" = some "abcd1234" ∧
    get3 stC1.messages "en" "common" "greet" = some "DIRECT" ∧
    resolveTemplate stC1 "greet" "common" = "Hello" :=
  ⟨by decide, by decide,
    claim_C1 stC1 "greet" "common" "abcd1234" "Hello"
      (by decide) (by decide) (by decide) (by decide)⟩

/-- Claim C2 counterexample: in `stC2` the current locale's meta maps
"greet" to hash "h1", no template exists for "h1", and the direct key
"greet" holds "DIRECT" — yet resolution returns the lookup "greet", not
the direct-key template, because the code consults the direct key only
when no meta hash exists at all. -/
theorem claim_C2_cex :
    stC2.locale = "en" ∧ stC2.fallbackLocale = none ∧
    get3 stC2.meta "en" "common" "greet" = some "h1" ∧
    get3 stC2.messages "en" "common" "h1" = none ∧
    get3 stC2.messages "en" "common" "greet" = some "DIRECT" ∧
    resolveTemplate stC2 "greet" "common" = "greet" ∧
    ("greet" : String) ≠ "DIRECT" := by
  decide

/-- Claim C2 amended: when the current locale's meta maps the lookup to a
(truthy) hash but the message store holds no truthy template for that
hash, the current locale's direct key is not consulted at all —
resolution moves directly to the fallback path (fallback-locale lookup if
configured, else the lookup text). -/
theorem claim_C2_amended (st : I18nState) (text ns h : String)
    (h1 : get3 st.meta st.locale ns text = some h) (h2 : h ≠ "")
    (h3 : truthyStr (get3 st.messages st.locale ns h) = false) :
    resolveTemplate st text ns = fallbackResolve st text ns := by
  apply resolveTemplate_of_cur_falsy
  rw [lookupIn_hash st.messages st.meta st.locale ns text h h1 h2]
  exact h3

/-- Claim C2 amended witness: applied to `stC2` at lookup "greet". -/
theorem claim_C2_amended_witness :
    resolveTemplate stC2 "greet" "common" = fallbackResolve stC2 "greet" "common" :=
  claim_C2_amended stC2 "greet" "common" "h1" (by decide) (by decide) (by decide)

/-- Claim C9 counterexample: the empty string is a locale with an entry
in `stC9.messages`, yet `setLocale` throws its non-empty-string
configuration error instead of succeeding. -/
theorem claim_C9_cex :
    objGet stC9.messages "" = some [] ∧
    setLocale stC9 "" = Except.error "setLocale() requires a non-empty string" := by
  decide

/-- Claim C9 amended: for every locale with no entry in the message
store, `setLocale` throws a configuration error and the current locale is
unchanged; for every nonempty locale with an entry, `setLocale` succeeds
and `getLocale` afterwards returns it.  (The empty string additionally
always throws, even when an entry for it exists.) -/
theorem claim_C9_amended (st : I18nState) (n : String) :
    (objGet st.messages n = none →
      (∃ e, setLocale st n = Except.error e) ∧
      getLocale (runSetLocale st n) = getLocale st) ∧
    (n ≠ "" → (objGet st.messages n).isSome = true →
      setLocale st n = Except.ok { st with locale := n } ∧
      getLocale (runSetLocale st n) = n) := by
  constructor
  · intro hnone
    by_cases hn : n = ""
    · subst hn
      exact ⟨⟨"setLocale() requires a non-empty string", rfl⟩, rfl⟩
    · refine ⟨⟨"Locale \"" ++ n ++ "\" is not available in messages", ?_⟩, ?_⟩
      · simp [setLocale, hn, hnone]
      · simp [runSetLocale, setLocale, hn, hnone, getLocale]
  · intro hn hsome
    obtain ⟨o, ho⟩ := Option.isSome_iff_exists.mp hsome
    constructor
    · simp [setLocale, hn, ho]
    · simp [runSetLocale, setLocale, hn, ho, getLocale]

/-- Claim C9 amended witness: on `stC1`, "fr" has no entry (error, locale
unchanged) while "en" has one (success). -/
theorem claim_C9_amended_witness :
    ((∃ e, setLocale stC1 "fr" = Except.error e) ∧
      getLocale (runSetLocale stC1 "fr") = getLocale stC1) ∧
    (setLocale stC1 "en" = Except.ok { stC1 with locale := "en" } ∧
      getLocale (runSetLocale stC1 "en") = "en") :=
  ⟨(claim_C9_amended stC1 "fr").1 (by decide),
   (claim_C9_amended stC1 "en").2 (by decide) (by decide)⟩

/-- Claim C10: a resolved current-locale entry that is the empty string
is treated as a miss: resolution proceeds exactly as the fallback path
(fallback locale consulted, then the lookup text), and for a nonempty
lookup the result is never the empty string. -/
theorem claim_C10 (st : I18nState) (text ns : String)
    (hle : lookupIn st.messages st.meta st.locale ns text = some "") :
    resolveTemplate st text ns = fallbackResolve st text ns ∧
    (text ≠ "" → resolveTemplate st text ns ≠ "") :=
  ⟨resolveTemplate_of_cur_falsy st text ns (by rw [hle]; rfl),
   fun h => resolveTemplate_ne_empty st text ns h⟩

/-- Claim C10 witness: in `stC10` the current-locale entry for "k" is
"" and resolution falls through to the fallback locale's translation. -/
theorem claim_C10_witness :
    resolveTemplate stC10 "k" "common" = fallbackResolve stC10 "k" "common" ∧
    resolveTemplate stC10 "k" "common" ≠ "" :=
  ⟨(claim_C10 stC10 "k" "common" (by decide)).1,
   (claim_C10 stC10 "k" "common" (by decide)).2 (by decide)⟩

/-- Claim C3: whenever the resolved template is classified as ICU and its
evaluation fails, `t` returns the original unevaluated template verbatim
— the failure never escapes (`coreT` is a total function into strings) —
and so the returned string is nonempty whenever the template is. -/
theorem claim_C3 (st : I18nState) (text ns : String)
    (values : List (String × JSVal)) (e : String)
    (hicu : isICUMessage (resolveTemplate st text ns) = true)
    (herr : formatICU (resolveTemplate st text ns) st.locale values = Except.error e) :
    coreT st text values ns = resolveTemplate st text ns ∧
    (resolveTemplate st text ns ≠ "" → coreT st text values ns ≠ "") := by
  have h1 : coreT st text values ns = resolveTemplate st text ns := by
    simp [coreT, hicu, herr]
  exact ⟨h1, fun hne => h1 ▸ hne⟩

/-- Claim C3 witness: the stored template with unbalanced braces under
plural syntax is detected as ICU, fails to evaluate, and `t` returns it
verbatim without raising. -/
theorem claim_C3_witness :
    coreT stC3 "k" [("count", JSVal.num 1)] "common"
      = "\x7bcount, plural, one \x7b# item" :=
  (claim_C3 stC3 "k" "common" [("count", JSVal.num 1)] "icu: unbalanced braces"
    (by decide) (by decide)).1

/-- Claim C5: the offset plural template evaluated under locale "en":
exact arms match the unoffset value (0 → "Nobody", 1 → "Just you") while
the category arm and `#` use the offset-shifted value (2 → category one,
rendering 1; 5 → other, rendering 4). -/
theorem claim_C5 :
    coreT emptyState tplC5 [("count", JSVal.num 0)] "common" = "Nobody" ∧
    coreT emptyState tplC5 [("count", JSVal.num 1)] "common" = "Just you" ∧
    coreT emptyState tplC5 [("count", JSVal.num 2)] "common" = "You and 1 other" ∧
    coreT emptyState tplC5 [("count", JSVal.num 5)] "common" = "You and 4 others" := by
  decide

/-- A list is its own `isPrefixOf` any extension of itself. -/
theorem isPrefixOf_self_append (l t : List Char) : l.isPrefixOf (l ++ t) = true := by
  induction l with
  | nil => simp [List.isPrefixOf]
  | cons c l ih => simp [List.isPrefixOf, ih]

/-- Replacing a pattern that does not occur anywhere leaves the input
unchanged (prefixed by the already-scanned accumulator). -/
theorem replFirstAux_not_contains (pat r : List Char) :
    ∀ (s acc : List Char), containsPat pat s = false →
      replFirstAux pat r acc s = acc.reverse ++ s := by
  intro s
  induction s with
  | nil => intro acc _; simp [replFirstAux]
  | cons c rest ih =>
    intro acc h
    simp only [containsPat, Bool.or_eq_false_iff] at h
    simp only [replFirstAux, h.1, Bool.false_eq_true, if_false]
    rw [ih (c :: acc) h.2]
    simp

/-- `String.mk` of a string's character list is the string itself. -/
theorem mk_data (s : String) : (⟨s.data⟩ : String) = s := rfl

/-- String appending is character-list appending. -/
theorem data_append (a b : String) : (a ++ b).data = a.data ++ b.data := rfl

/-- The substitution loop leaves a template unchanged when no supplied
key's placeholder occurs in it. -/
theorem substituteVars_nomatch (text : String) :
    ∀ values : List (String × JSVal),
    (∀ kv ∈ values, containsPat ("\x7b" ++ kv.1 ++ "\x7d").data text.data = false) →
    substituteVars text values = text := by
  intro values
  induction values with
  | nil => intro _; rfl
  | cons kv rest ih =>
    intro h
    have hstep : ∀ v, replaceFirst text ("\x7b" ++ kv.1 ++ "\x7d") v = text := by
      intro v
      unfold replaceFirst
      rw [replFirstAux_not_contains _ _ _ [] (h kv (List.mem_cons_self kv rest))]
      simp [mk_data]
    have hrest := ih fun kv2 hm => h kv2 (List.mem_cons_of_mem kv hm)
    simp only [substituteVars, List.foldl_cons] at hrest ⊢
    cases hsc : scalarToString kv.2 with
    | none => simpa [hsc] using hrest
    | some v => simpa [hsc, hstep v] using hrest

/-- Claim C4: on a total miss — no truthy entry under the current locale
nor under any configured fallback locale — `t` returns the lookup string
itself unchanged, provided the lookup has no ICU syntax and no supplied
value's placeholder occurs in it.  No error is raised: `coreT` is total. -/
theorem claim_C4 (st : I18nState) (text ns : String) (values : List (String × JSVal))
    (hcur : lookupIn st.messages st.meta st.locale ns text = none)
    (hfb : ∀ f, st.fallbackLocale = some f →
      lookupIn st.messages st.meta f ns text = none)
    (hicu : isICUMessage text = false)
    (hvals : ∀ kv ∈ values, containsPat ("\x7b" ++ kv.1 ++ "\x7d").data text.data = false) :
    coreT st text values ns = text := by
  have hres : resolveTemplate st text ns = text := by
    simp only [resolveTemplate, hcur]
    cases hfb2 : st.fallbackLocale with
    | none => simp [truthyStr]
    | some f =>
      by_cases hf : f = ""
      · subst hf
        simp [truthyStr]
      · simp [truthyStr, hf, hfb f hfb2]
  simp only [coreT, hres, hicu, Bool.false_eq_true, if_false]
  exact substituteVars_nomatch text values hvals

/-- Claim C4 witness: a lookup absent from the empty store, containing
no ICU syntax and no supplied placeholder, echoes unchanged. -/
theorem claim_C4_witness :
    coreT emptyState "Hello world" [("name", JSVal.str "Sam")] "common" = "Hello world" :=
  claim_C4 emptyState "Hello world" "common" [("name", JSVal.str "Sam")]
    (by decide) (by intro f hf; cases hf) (by decide) (by decide)

/-- Claim C7 counterexample: with the same placeholder occurring twice,
the substitution pass replaces only the first occurrence — the claim's
predicted output "A and A" is not produced. -/
theorem claim_C7_cex :
    coreT emptyState "\x7bx\x7d and \x7bx\x7d" [("x", JSVal.str "A")] "common"
      = "A and \x7bx\x7d" ∧
    ("A and \x7bx\x7d" : String) ≠ "A and A" := by
  decide

/-- Replacing the pattern in `a ++ pat ++ b` hits the explicit middle
occurrence when no occurrence starts inside `a`: the result is the text
before the match, the `GetSubstitution`-expanded replacement (which sees
that before-text and `b`), and `b` — any later occurrences included —
untouched. -/
theorem replFirstAux_middle (pat r b : List Char) (hpat : pat ≠ []) :
    ∀ a acc, noEarly pat b a = true →
    replFirstAux pat r acc (a ++ (pat ++ b))
      = acc.reverse ++ a ++ getSubstitution pat (acc.reverse ++ a) b r ++ b := by
  intro a
  induction a with
  | nil =>
    intro acc _
    cases pat with
    | nil => exact absurd rfl hpat
    | cons p ps =>
      have hpre := isPrefixOf_self_append (p :: ps) b
      simp only [List.cons_append] at hpre
      simp only [List.nil_append, List.cons_append, replFirstAux, hpre, if_true]
      simp [List.drop_left]
  | cons c a2 ih =>
    intro acc h
    simp only [noEarly, Bool.and_eq_true, Bool.not_eq_true'] at h
    obtain ⟨hnp, hrest⟩ := h
    have hnp2 : pat.isPrefixOf (c :: (a2 ++ (pat ++ b))) = false := by
      simpa [List.cons_append, List.append_assoc] using hnp
    simp only [List.cons_append, List.append_eq, replFirstAux, hnp2,
      Bool.false_eq_true, if_false]
    rw [ih (c :: acc) hrest]
    simp [List.reverse_cons, List.append_assoc]

/-- Claim C7 amended: in the variable-substitution pass, a string or
number value replaces only the FIRST occurrence of its `\x7bkey\x7d`
placeholder (the text after it, later occurrences included, is kept
verbatim), the inserted text being the value's string form as expanded
by JS replacement-pattern processing (`getSubstitution`); a value that
is neither string nor number leaves the template unchanged. -/
theorem claim_C7_amended (a k v b : String) (n : Int)
    (h : noEarly ("\x7b" ++ k ++ "\x7d").data b.data a.data = true) :
    substituteVars (a ++ ("\x7b" ++ k ++ "\x7d") ++ b) [(k, JSVal.str v)]
      = a ++ (⟨getSubstitution ("\x7b" ++ k ++ "\x7d").data a.data b.data v.data⟩ : String)
          ++ b ∧
    substituteVars (a ++ ("\x7b" ++ k ++ "\x7d") ++ b) [(k, JSVal.num n)]
      = a ++ (⟨getSubstitution ("\x7b" ++ k ++ "\x7d").data a.data b.data
            (toString n).data⟩ : String) ++ b ∧
    substituteVars (a ++ ("\x7b" ++ k ++ "\x7d") ++ b) [(k, JSVal.other)]
      = a ++ ("\x7b" ++ k ++ "\x7d") ++ b := by
  have hpat : ("\x7b" ++ k ++ "\x7d").data ≠ [] := by
    simp [data_append]
  have key : ∀ w : String,
      substituteVars (a ++ ("\x7b" ++ k ++ "\x7d") ++ b) [(k, JSVal.str w)]
        = a ++ (⟨getSubstitution ("\x7b" ++ k ++ "\x7d").data a.data b.data w.data⟩ : String)
            ++ b := by
    intro w
    show replaceFirst (a ++ ("\x7b" ++ k ++ "\x7d") ++ b) ("\x7b" ++ k ++ "\x7d") w
      = a ++ (⟨getSubstitution ("\x7b" ++ k ++ "\x7d").data a.data b.data w.data⟩ : String)
          ++ b
    unfold replaceFirst
    rw [show (a ++ ("\x7b" ++ k ++ "\x7d") ++ b).data
        = a.data ++ (("\x7b" ++ k ++ "\x7d").data ++ b.data) by
      simp [data_append]]
    rw [replFirstAux_middle _ _ _ hpat a.data [] h]
    show (⟨a.data ++ getSubstitution ("\x7b" ++ k ++ "\x7d").data a.data b.data w.data
        ++ b.data⟩ : String) = _
    show (⟨a.data ++ getSubstitution ("\x7b" ++ k ++ "\x7d").data a.data b.data w.data
        ++ b.data⟩ : String)
      = ⟨(a.data ++ getSubstitution ("\x7b" ++ k ++ "\x7d").data a.data b.data w.data)
          ++ b.data⟩
    rfl
  refine ⟨key v, ?_, ?_⟩
  · have := key (toString n)
    simpa [substituteVars, scalarToString] using this
  · rfl

/-- Claim C7 amended witness: the first occurrence of the placeholder is
substituted — with an ordinary value inserted verbatim and a `$&` value
re-inserting the matched placeholder, per the replacement-pattern
expansion — while the second occurrence survives verbatim. -/
theorem claim_C7_amended_witness :
    substituteVars ("Use " ++ ("\x7b" ++ "x" ++ "\x7d") ++ " and \x7bx\x7d again")
      [("x", JSVal.str "A")] = "Use " ++ "A" ++ " and \x7bx\x7d again" ∧
    substituteVars ("Use " ++ ("\x7b" ++ "x" ++ "\x7d") ++ " and \x7bx\x7d again")
      [("x", JSVal.str "$&")] = "Use " ++ "\x7bx\x7d" ++ " and \x7bx\x7d again" :=
  ⟨((claim_C7_amended "Use " "x" "A" " and \x7bx\x7d again" 0 (by decide)).1).trans
      (by decide),
   ((claim_C7_amended "Use " "x" "$&" " and \x7bx\x7d again" 0 (by decide)).1).trans
      (by decide)⟩

/-- The whitespace class and the word class are disjoint. -/
theorem ws_not_word (c : Char) (h : isJSWs c = true) : isWordChar c = false := by
  simp only [isJSWs, Bool.or_eq_true, decide_eq_true_eq] at h
  rcases h with ((((h | h) | h) | h) | h) | h <;> subst h <;> decide

/-- A word character is not whitespace. -/
theorem word_not_ws (c : Char) (h : isWordChar c = true) : isJSWs c = false := by
  by_cases hws : isJSWs c = true
  · rw [ws_not_word c hws] at h
    cases h
  · exact Bool.not_eq_true _ ▸ Bool.of_not_eq_true hws

/-- `takeWhile` passes over an all-satisfying block. -/
theorem takeWhile_append_all (p : Char → Bool) (xs : List Char)
    (h : ∀ c ∈ xs, p c = true) :
    ∀ rest, (xs ++ rest).takeWhile p = xs ++ rest.takeWhile p := by
  induction xs with
  | nil => intro rest; rfl
  | cons c xs2 ih =>
    intro rest
    have hc := h c (List.mem_cons_self c xs2)
    simp only [List.cons_append, List.takeWhile_cons_of_pos hc]
    rw [ih (fun d hd => h d (List.mem_cons_of_mem c hd)) rest]

/-- `dropWhile` skips an all-satisfying block. -/
theorem dropWhile_append_all (p : Char → Bool) (xs : List Char)
    (h : ∀ c ∈ xs, p c = true) :
    ∀ rest, (xs ++ rest).dropWhile p = rest.dropWhile p := by
  induction xs with
  | nil => intro rest; rfl
  | cons c xs2 ih =>
    intro rest
    have hc := h c (List.mem_cons_self c xs2)
    simp only [List.cons_append, List.dropWhile_cons_of_pos hc]
    exact ih (fun d hd => h d (List.mem_cons_of_mem c hd)) rest

/-- Every element of a `takeWhile` result satisfies the predicate. -/
theorem mem_takeWhile_prop (p : Char → Bool) :
    ∀ (l : List Char) (c : Char), c ∈ l.takeWhile p → p c = true := by
  intro l
  induction l with
  | nil => intro c hc; cases hc
  | cons d l2 ih =>
    intro c hc
    by_cases hd : p d = true
    · rw [List.takeWhile_cons_of_pos hd] at hc
      rcases List.mem_cons.mp hc with h | h
      · subst h; exact hd
      · exact ih c h
    · rw [List.takeWhile_cons_of_neg hd] at hc
      cases hc

/-- `dropWhile` is `drop` of the `takeWhile` length. -/
theorem dropWhile_eq_drop_len (p : Char → Bool) :
    ∀ l : List Char, l.dropWhile p = l.drop (l.takeWhile p).length := by
  intro l
  induction l with
  | nil => rfl
  | cons c l2 ih =>
    by_cases hc : p c = true
    · simp only [List.takeWhile_cons_of_pos hc, List.dropWhile_cons_of_pos hc,
        List.length_cons, List.drop_succ_cons]
      exact ih
    · simp [List.takeWhile_cons_of_neg hc, List.dropWhile_cons_of_neg hc]

/-- A boolean prefix test yields an append decomposition. -/
theorem eq_append_of_isPrefixOf :
    ∀ (l m : List Char), l.isPrefixOf m = true → ∃ t, m = l ++ t := by
  intro l
  induction l with
  | nil => intro m _; exact ⟨m, rfl⟩
  | cons c l2 ih =>
    intro m h
    cases m with
    | nil => cases h
    | cons d m2 =>
      simp only [List.isPrefixOf, Bool.and_eq_true, beq_iff_eq] at h
      obtain ⟨rfl, h2⟩ := h
      obtain ⟨t, ht⟩ := ih m2 h2
      exact ⟨t, by rw [List.cons_append, ht]⟩

/-- A regex match at some position makes the unanchored search succeed. -/
theorem containsICUPat_suffix (a b : List Char) (h : matchICUAt b = true) :
    containsICUPat (a ++ b) = true := by
  induction a with
  | nil =>
    cases b with
    | nil => simp [matchICUAt] at h
    | cons c cs => simp [containsICUPat, h]
  | cons x a2 ih => simp [containsICUPat, ih]

/-- The anchored detection regex matches a brace followed by whitespace,
a nonempty identifier, whitespace, a comma, whitespace and a keyword. -/
theorem matchICUAt_parts (w1 ident w2 w3 kw post : List Char)
    (hw1 : ∀ c ∈ w1, isJSWs c = true) (hid : ident ≠ [])
    (hidw : ∀ c ∈ ident, isWordChar c = true)
    (hw2 : ∀ c ∈ w2, isJSWs c = true) (hw3 : ∀ c ∈ w3, isJSWs c = true)
    (hkw : kw ∈ icuKeywords) :
    matchICUAt ('{' :: (w1 ++ ident ++ w2 ++ ',' :: (w3 ++ kw ++ post))) = true := by
  obtain ⟨i, is, rfl⟩ : ∃ i is, ident = i :: is := by
    cases ident with
    | nil => exact absurd rfl hid
    | cons i is => exact ⟨i, is, rfl⟩
  have hiw : isWordChar i = true := hidw i (List.mem_cons_self i is)
  have hdw1 : ((i :: is) ++ (w2 ++ ',' :: (w3 ++ kw ++ post))).dropWhile isJSWs
      = (i :: is) ++ (w2 ++ ',' :: (w3 ++ kw ++ post)) := by
    simp only [List.cons_append]
    exact List.dropWhile_cons_of_neg (by rw [word_not_ws i hiw]; decide)
  have hr1 : (w1 ++ (i :: is) ++ w2 ++ ',' :: (w3 ++ kw ++ post)).dropWhile isJSWs
      = (i :: is) ++ (w2 ++ ',' :: (w3 ++ kw ++ post)) := by
    rw [show w1 ++ (i :: is) ++ w2 ++ ',' :: (w3 ++ kw ++ post)
        = w1 ++ ((i :: is) ++ (w2 ++ ',' :: (w3 ++ kw ++ post))) by simp]
    rw [dropWhile_append_all isJSWs w1 hw1, hdw1]
  have htw : ((i :: is) ++ (w2 ++ ',' :: (w3 ++ kw ++ post))).takeWhile isWordChar
      = i :: is := by
    rw [takeWhile_append_all isWordChar (i :: is) hidw]
    have h2 : (w2 ++ ',' :: (w3 ++ kw ++ post)).takeWhile isWordChar = [] := by
      cases w2 with
      | nil => exact List.takeWhile_cons_of_neg (by decide)
      | cons d w2b =>
        refine List.takeWhile_cons_of_neg ?_
        rw [ws_not_word d (hw2 d (List.mem_cons_self d w2b))]
        decide
    rw [h2, List.append_nil]
  have hdrop : ((i :: is) ++ (w2 ++ ',' :: (w3 ++ kw ++ post))).drop (i :: is).length
      = w2 ++ ',' :: (w3 ++ kw ++ post) :=
    List.drop_left _ _
  have hdw2 : (w2 ++ ',' :: (w3 ++ kw ++ post)).dropWhile isJSWs
      = ',' :: (w3 ++ kw ++ post) := by
    rw [dropWhile_append_all isJSWs w2 hw2]
    exact List.dropWhile_cons_of_neg (by decide)
  have hkwhead : ∃ k0 ks, kw = k0 :: ks ∧ isJSWs k0 = false := by
    simp only [icuKeywords, List.mem_cons, List.mem_singleton] at hkw
    rcases hkw with rfl | rfl | rfl | rfl | rfl | (rfl | h)
    · exact ⟨_, _, rfl, by decide⟩
    · exact ⟨_, _, rfl, by decide⟩
    · exact ⟨_, _, rfl, by decide⟩
    · exact ⟨_, _, rfl, by decide⟩
    · exact ⟨_, _, rfl, by decide⟩
    · exact ⟨_, _, rfl, by decide⟩
    · cases h
  have hdw3 : (w3 ++ kw ++ post).dropWhile isJSWs = kw ++ post := by
    obtain ⟨k0, ks, rfl, hk0⟩ := hkwhead
    rw [show w3 ++ (k0 :: ks) ++ post = w3 ++ ((k0 :: ks) ++ post) by simp]
    rw [dropWhile_append_all isJSWs w3 hw3]
    simp only [List.cons_append]
    exact List.dropWhile_cons_of_neg (by rw [hk0]; decide)
  have hany : icuKeywords.any (fun k => k.isPrefixOf (kw ++ post)) = true :=
    List.any_eq_true.mpr ⟨kw, hkw, isPrefixOf_self_append kw post⟩
  rw [show w1 ++ (i :: is) ++ w2 ++ ',' :: (w3 ++ kw ++ post)
      = w1 ++ ((i :: is) ++ (w2 ++ ',' :: (w3 ++ kw ++ post))) by simp] at hr1 ⊢
  simp only [matchICUAt, if_true]
  rw [hr1, htw, hdrop, hdw2]
  show icuKeywords.any (fun k => k.isPrefixOf ((w3 ++ kw ++ post).dropWhile isJSWs)) = true
  rw [hdw3]
  exact hany

/-- An anchored regex match decomposes the input into the spec's
substring form. -/
theorem matchICUAt_decomp (s : List Char) (h : matchICUAt s = true) :
    ∃ w1 ident w2 w3 kw post,
      s = '{' :: (w1 ++ ident ++ w2 ++ ',' :: (w3 ++ kw ++ post)) ∧
      (∀ c ∈ w1, isJSWs c = true) ∧ ident ≠ [] ∧
      (∀ c ∈ ident, isWordChar c = true) ∧
      (∀ c ∈ w2, isJSWs c = true) ∧ (∀ c ∈ w3, isJSWs c = true) ∧
      kw ∈ icuKeywords := by
  cases s with
  | nil => simp [matchICUAt] at h
  | cons c rest =>
    by_cases hc : c = '{'
    · subst hc
      simp only [matchICUAt, if_true] at h
      by_cases hemp : ((rest.dropWhile isJSWs).takeWhile isWordChar).isEmpty = true
      · rw [if_pos hemp] at h
        cases h
      · rw [if_neg hemp] at h
        rcases heq : ((rest.dropWhile isJSWs).drop
            ((rest.dropWhile isJSWs).takeWhile isWordChar).length).dropWhile isJSWs with
          _ | ⟨d, r2⟩
        · rw [heq] at h
          cases h
        · rw [heq] at h
          change (if d = ',' then
              icuKeywords.any fun k => k.isPrefixOf (r2.dropWhile isJSWs)
            else false) = true at h
          by_cases hd : d = ','
          · subst hd
            rw [if_pos rfl] at h
            obtain ⟨kw, hkwmem, hkwpre⟩ := List.any_eq_true.mp h
            obtain ⟨post, hpost⟩ := eq_append_of_isPrefixOf _ _ hkwpre
            refine ⟨rest.takeWhile isJSWs,
              (rest.dropWhile isJSWs).takeWhile isWordChar,
              ((rest.dropWhile isJSWs).drop
                ((rest.dropWhile isJSWs).takeWhile isWordChar).length).takeWhile isJSWs,
              r2.takeWhile isJSWs, kw, post, ?_, ?_, ?_, ?_, ?_, ?_, hkwmem⟩
            · have e1 : rest.takeWhile isJSWs ++ rest.dropWhile isJSWs = rest :=
                List.takeWhile_append_dropWhile _ _
              have e2 : (rest.dropWhile isJSWs).takeWhile isWordChar
                  ++ ((rest.dropWhile isJSWs).drop
                    ((rest.dropWhile isJSWs).takeWhile isWordChar).length)
                  = rest.dropWhile isJSWs := by
                rw [← dropWhile_eq_drop_len]
                exact List.takeWhile_append_dropWhile _ _
              have e3 : ((rest.dropWhile isJSWs).drop
                    ((rest.dropWhile isJSWs).takeWhile isWordChar).length).takeWhile isJSWs
                  ++ (',' :: r2)
                  = (rest.dropWhile isJSWs).drop
                    ((rest.dropWhile isJSWs).takeWhile isWordChar).length := by
                rw [← heq]
                exact List.takeWhile_append_dropWhile _ _
              have e4 : r2.takeWhile isJSWs ++ (kw ++ post) = r2 := by
                rw [← hpost]
                exact List.takeWhile_append_dropWhile _ _
              simp only [List.append_assoc, List.cons_append]
              rw [e4, e3, e2, e1]
            · exact fun c2 hc2 => mem_takeWhile_prop isJSWs rest c2 hc2
            · intro hnil
              rw [hnil] at hemp
              exact hemp rfl
            · exact fun c2 hc2 => mem_takeWhile_prop isWordChar _ c2 hc2
            · exact fun c2 hc2 => mem_takeWhile_prop isJSWs _ c2 hc2
            · exact fun c2 hc2 => mem_takeWhile_prop isJSWs _ c2 hc2
          · rw [if_neg hd] at h
            cases h
    · simp only [matchICUAt] at h
      rw [if_neg hc] at h
      cases h

/-- An unanchored regex hit decomposes the input into a position where
the spec's substring form starts. -/
theorem containsICUPat_decomp (s : List Char) (h : containsICUPat s = true) :
    ∃ pre w1 ident w2 w3 kw post,
      s = pre ++ '{' :: (w1 ++ ident ++ w2 ++ ',' :: (w3 ++ kw ++ post)) ∧
      (∀ c ∈ w1, isJSWs c = true) ∧ ident ≠ [] ∧
      (∀ c ∈ ident, isWordChar c = true) ∧
      (∀ c ∈ w2, isJSWs c = true) ∧ (∀ c ∈ w3, isJSWs c = true) ∧
      kw ∈ icuKeywords := by
  induction s with
  | nil => cases h
  | cons c cs ih =>
    simp only [containsICUPat, Bool.or_eq_true] at h
    rcases h with h | h
    · obtain ⟨w1, ident, w2, w3, kw, post, heq, p1, p2, p3, p4, p5, p6⟩ :=
        matchICUAt_decomp (c :: cs) h
      exact ⟨[], w1, ident, w2, w3, kw, post, by simpa using heq,
        p1, p2, p3, p4, p5, p6⟩
    · obtain ⟨pre, w1, ident, w2, w3, kw, post, heq, p1, p2, p3, p4, p5, p6⟩ := ih h
      exact ⟨c :: pre, w1, ident, w2, w3, kw, post, by rw [List.cons_append, ← heq],
        p1, p2, p3, p4, p5, p6⟩

/-- Claim C6: a template is classified as ICU iff it contains a
substring of the form brace, whitespace, identifier, whitespace, comma,
whitespace, ICU keyword; a bare `\x7bvariable\x7d` placeholder is never
ICU and undergoes only plain variable substitution. -/
theorem claim_C6 :
    (∀ text : String, isICUMessage text = true ↔ SpecICUPattern text) ∧
    isICUMessage "Use \x7bvariable\x7d for substitution" = false ∧
    coreT emptyState "Use \x7bvariable\x7d for substitution"
      [("variable", JSVal.str "count")] "common" = "Use count for substitution" := by
  refine ⟨?_, by decide, by decide⟩
  intro text
  constructor
  · intro h
    obtain ⟨pre, w1, ident, w2, w3, kw, post, heq, p1, p2, p3, p4, p5, p6⟩ :=
      containsICUPat_decomp text.data h
    exact ⟨pre, w1, ident, w2, w3, kw, post, heq, p1, p2, p3, p4, p5, p6⟩
  · rintro ⟨pre, w1, ident, w2, w3, kw, post, heq, p1, p2, p3, p4, p5, p6⟩
    show containsICUPat text.data = true
    rw [heq]
    exact containsICUPat_suffix pre _
      (matchICUAt_parts w1 ident w2 w3 kw post p1 p2 p3 p4 p5 p6)

/-- The close-tag matcher accepts exactly `</name>` and returns the
rest. -/
theorem closeTagAt_parts (name : String) (post : List Char) :
    closeTagAt name.data ('<' :: '/' :: (name.data ++ '>' :: post)) = some post := by
  simp only [closeTagAt, if_true]
  rw [isPrefixOf_self_append name.data ('>' :: post)]
  simp only [if_true]
  rw [List.drop_left]
  show (if '>' = '>' then some post else none) = some post
  simp

/-- The content matcher captures a `<`-free content block up to the
matching close tag. -/
theorem contentAt_parts (name content : String) (post : List Char)
    (hct : ∀ c ∈ content.data, c ≠ '<') :
    contentAt name.data (content.data ++ '<' :: '/' :: (name.data ++ '>' :: post))
      = some (content, post) := by
  have hct2 : ∀ c ∈ content.data, (c != '<') = true := fun c hc =>
    bne_iff_ne.mpr (hct c hc)
  have htw : (content.data ++ '<' :: '/' :: (name.data ++ '>' :: post)).takeWhile
      (fun c => c != '<') = content.data := by
    rw [takeWhile_append_all _ content.data hct2]
    rw [List.takeWhile_cons_of_neg (by decide)]
    exact List.append_nil _
  simp only [contentAt]
  rw [htw, List.drop_left, closeTagAt_parts]
  rfl

/-- The anchored tag regex matches a well-formed
`<name>content</name>` span exactly, capturing name and content. -/
theorem matchTagAt_parts (name content : String) (post : List Char)
    (hn : name.data ≠ []) (hnw : ∀ c ∈ name.data, isWordChar c = true)
    (hct : ∀ c ∈ content.data, c ≠ '<') :
    matchTagAt ('<' :: (name.data ++ '>' ::
        (content.data ++ '<' :: '/' :: (name.data ++ '>' :: post))))
      = some (name, content, post) := by
  have htw : (name.data ++ '>' ::
      (content.data ++ '<' :: '/' :: (name.data ++ '>' :: post))).takeWhile isWordChar
      = name.data := by
    rw [takeWhile_append_all isWordChar name.data hnw]
    rw [List.takeWhile_cons_of_neg (by decide)]
    exact List.append_nil _
  have hne : ¬ (name.data.isEmpty = true) := by
    simpa [List.isEmpty_iff] using hn
  simp only [matchTagAt, if_true]
  rw [htw, if_neg hne, List.drop_left]
  show (if '>' = '>' then
      (contentAt name.data (content.data ++ '<' :: '/' :: (name.data ++ '>' :: post))).map
        fun cr => ((⟨name.data⟩ : String), cr.1, cr.2)
    else none) = some (name, content, post)
  rw [if_pos rfl, contentAt_parts name content post hct]
  rfl

/-- The anchored tag regex cannot match at a character other than
`<`. -/
theorem matchTagAt_not_lt (c : Char) (s : List Char) (h : c ≠ '<') :
    matchTagAt (c :: s) = none := by
  simp only [matchTagAt]
  rw [if_neg h]

/-- The leftmost-search accumulator lemma: scanning past a `<`-free
block finds the explicitly placed span. -/
theorem findTagAux_parts (name content : String) (post : List Char)
    (hn : name.data ≠ []) (hnw : ∀ c ∈ name.data, isWordChar c = true)
    (hct : ∀ c ∈ content.data, c ≠ '<') :
    ∀ (pre acc : List Char), (∀ c ∈ pre, c ≠ '<') →
      findTagAux acc (pre ++ '<' :: (name.data ++ '>' ::
          (content.data ++ '<' :: '/' :: (name.data ++ '>' :: post))))
        = some (acc.reverse ++ pre, name, content, post) := by
  intro pre
  induction pre with
  | nil =>
    intro acc _
    simp only [List.nil_append, findTagAux]
    rw [matchTagAt_parts name content post hn hnw hct]
    simp
  | cons c pre2 ih =>
    intro acc hpre
    have hc : c ≠ '<' := hpre c (List.mem_cons_self c pre2)
    simp only [List.cons_append, findTagAux]
    rw [matchTagAt_not_lt c _ hc]
    show findTagAux (c :: acc) (pre2 ++ '<' :: (name.data ++ '>' ::
        (content.data ++ '<' :: '/' :: (name.data ++ '>' :: post))))
      = some (acc.reverse ++ c :: pre2, name, content, post)
    rw [ih (c :: acc) fun d hd => hpre d (List.mem_cons_of_mem c hd)]
    simp

/-- The first tag match in `pre ++ <name>content</name> ++ post` with a
`<`-free `pre` is exactly the explicit span. -/
theorem findTag_parts (name content : String) (post pre : List Char)
    (hn : name.data ≠ []) (hnw : ∀ c ∈ name.data, isWordChar c = true)
    (hct : ∀ c ∈ content.data, c ≠ '<') (hpre : ∀ c ∈ pre, c ≠ '<') :
    findTag (pre ++ '<' :: (name.data ++ '>' ::
        (content.data ++ '<' :: '/' :: (name.data ++ '>' :: post))))
      = some (pre, name, content, post) := by
  have := findTagAux_parts name content post hn hnw hct pre [] hpre
  simpa [findTag] using this

/-- A successful close-tag match strictly shrinks the input. -/
theorem closeTagAt_rest_lt (nm s rest : List Char)
    (h : closeTagAt nm s = some rest) : rest.length < s.length := by
  cases s with
  | nil => simp [closeTagAt] at h
  | cons c2 s2 =>
    cases s2 with
    | nil => simp [closeTagAt] at h
    | cons c3 rest3 =>
      simp only [closeTagAt] at h
      split at h
      · split at h
        · split at h
          · split at h
            · split at h
              · cases h
                have := congrArg List.length (by assumption :
                  rest3.drop nm.length = _ :: rest)
                simp [List.length_drop] at this
                simp [List.length_cons]
                omega
              · cases h
            · cases h
          · cases h
        · cases h
      · cases h

/-- A successful content-and-close match strictly shrinks the input. -/
theorem contentAt_rest_lt (nm s : List Char) (c : String) (rest : List Char)
    (h : contentAt nm s = some (c, rest)) : rest.length < s.length := by
  simp only [contentAt] at h
  cases hcl : closeTagAt nm (s.drop (s.takeWhile (fun c => c != '<')).length) with
  | none => rw [hcl] at h; cases h
  | some r4 =>
    rw [hcl] at h
    simp only [Option.map_some'] at h
    cases h
    have h1 := closeTagAt_rest_lt nm _ _ hcl
    have h2 : (s.drop (s.takeWhile (fun c => c != '<')).length).length ≤ s.length := by
      simp [List.length_drop]
    omega

/-- A successful anchored tag match strictly shrinks the input. -/
theorem matchTagAt_rest_lt (s : List Char) (n c : String) (rest : List Char)
    (h : matchTagAt s = some (n, c, rest)) : rest.length < s.length := by
  cases s with
  | nil => simp [matchTagAt] at h
  | cons c0 s0 =>
    simp only [matchTagAt] at h
    split at h
    · split at h
      · cases h
      · split at h
        · cases h
        · split at h
          · rename_i heq2 hgt
            cases hm : contentAt (s0.takeWhile isWordChar) _ with
            | none => rw [hm] at h; cases h
            | some cr =>
              rw [hm] at h
              cases h
              have h1 := contentAt_rest_lt _ _ cr.1 cr.2 (by rw [hm])
              have h2 := congrArg List.length heq2
              simp [List.length_drop] at h2
              simp [List.length_cons]
              omega
          · cases h
    · cases h

/-- A successful leftmost search strictly shrinks the input. -/
theorem findTagAux_rest_lt :
    ∀ (s acc : List Char) (pre : List Char) (n c : String) (rest : List Char),
      findTagAux acc s = some (pre, n, c, rest) → rest.length < s.length := by
  intro s
  induction s with
  | nil => intro acc pre n c rest h; cases h
  | cons c0 cs ih =>
    intro acc pre n c rest h
    simp only [findTagAux] at h
    cases hm : matchTagAt (c0 :: cs) with
    | some r =>
      rw [hm] at h
      cases h
      exact matchTagAt_rest_lt (c0 :: cs) r.1 r.2.1 r.2.2 (by rw [hm])
    | none =>
      rw [hm] at h
      have := ih (c0 :: acc) pre n c rest h
      simp [List.length_cons] at this ⊢
      omega

/-- A successful `findTag` strictly shrinks the input. -/
theorem findTag_rest_lt (s pre : List Char) (n c : String) (rest : List Char)
    (h : findTag s = some (pre, n, c, rest)) : rest.length < s.length :=
  findTagAux_rest_lt s [] pre n c rest h

/-- One unfolding of the scan loop at a successful `findTag`. -/
theorem tagLoopF_succ_some {ν : Type} (ctx : TagCtx ν)
    (values : Option (List (String × TagVal ν)))
    (components : List (String × TagVal ν)) (locale : String) (fuel : Nat)
    (s : List Char) (r : List Char × String × String × List Char)
    (hf : findTag s = some r) :
    tagLoopF ctx values components locale (fuel + 1) s =
      ((if r.1.isEmpty = true then [] else [Sum.inl (⟨r.1⟩ : String)]) ++
        (dispatchTag (inlineHandlerOf values r.2.1)
            (asHandler (objGet components r.2.1))
            (processedContentOf ctx values r.2.2.1)
            ("<" ++ r.2.1 ++ ">" ++ r.2.2.1 ++ "</" ++ r.2.1 ++ ">") locale).1
          :: (tagLoopF ctx values components locale fuel r.2.2.2).1,
       (dispatchTag (inlineHandlerOf values r.2.1)
            (asHandler (objGet components r.2.1))
            (processedContentOf ctx values r.2.2.1)
            ("<" ++ r.2.1 ++ ">" ++ r.2.2.1 ++ "</" ++ r.2.1 ++ ">") locale).2
          || (tagLoopF ctx values components locale fuel r.2.2.2).2) := by
  simp only [tagLoopF, hf]

/-- The scan loop's result does not depend on the fuel once the fuel
exceeds the input length. -/
theorem tagLoopF_fuel_congr {ν : Type} (ctx : TagCtx ν)
    (values : Option (List (String × TagVal ν)))
    (components : List (String × TagVal ν)) (locale : String) :
    ∀ (f1 : Nat) (s : List Char) (f2 : Nat), s.length < f1 → s.length < f2 →
      tagLoopF ctx values components locale f1 s
        = tagLoopF ctx values components locale f2 s := by
  intro f1
  induction f1 with
  | zero => intro s f2 h1 _; exact absurd h1 (Nat.not_lt_zero _)
  | succ f1 ih =>
    intro s f2 h1 h2
    cases f2 with
    | zero => exact absurd h2 (Nat.not_lt_zero _)
    | succ f2 =>
      cases hf : findTag s with
      | none => simp [tagLoopF, hf]
      | some r =>
        have hlt : r.2.2.2.length < s.length := by
          have : findTag s = some (r.1, r.2.1, r.2.2.1, r.2.2.2) := by rw [hf]
          exact findTag_rest_lt s r.1 r.2.1 r.2.2.1 r.2.2.2 this
        rw [tagLoopF_succ_some ctx values components locale f1 s r hf,
          tagLoopF_succ_some ctx values components locale f2 s r hf,
          ih r.2.2.2 f2 (by omega) (by omega)]

/-- Claim C8: for a matched span `<name>content</name>` in the tag pass
(with the span well-formed for the tag regex: a word name, `<`-free
content that is not itself a placeholder, scanned after a `<`-free
prefix), the span's part is produced by the handler dispatch; and the
dispatch behaves per the claim: with both an inline and a global handler
the global one is applied first to the content and the inline one wraps
its result; with exactly one handler it is applied directly to the
content; with none, the original `<name>content</name>` text is kept
unchanged (and contributes no replacement flag). -/
theorem claim_C8 {ν : Type} (ctx : TagCtx ν) (values : Option (List (String × TagVal ν)))
    (components : List (String × TagVal ν)) (locale : String)
    (pre name content post : String)
    (hpre : ∀ c ∈ pre.data, c ≠ '<')
    (hname : name.data ≠ []) (hnamew : ∀ c ∈ name.data, isWordChar c = true)
    (hcontent : ∀ c ∈ content.data, c ≠ '<') :
    tagPass ctx values components locale
        (pre ++ "<" ++ name ++ ">" ++ content ++ "</" ++ name ++ ">" ++ post)
      = ((if pre.data.isEmpty = true then [] else [Sum.inl pre]) ++
          (dispatchTag (inlineHandlerOf values name)
              (asHandler (objGet components name))
              (processedContentOf ctx values content)
              ("<" ++ name ++ ">" ++ content ++ "</" ++ name ++ ">") locale).1
            :: (tagPass ctx values components locale post).1,
         (dispatchTag (inlineHandlerOf values name)
              (asHandler (objGet components name))
              (processedContentOf ctx values content)
              ("<" ++ name ++ ">" ++ content ++ "</" ++ name ++ ">") locale).2
           || (tagPass ctx values components locale post).2) ∧
    (∀ ih gh,
      dispatchTag (some ih) (some gh) (processedContentOf ctx values content)
          ("<" ++ name ++ ">" ++ content ++ "</" ++ name ++ ">") locale
        = (Sum.inr (ih (gh (processedContentOf ctx values content) (some locale)) none),
           true)) ∧
    (∀ ih,
      dispatchTag (some ih) none (processedContentOf ctx values content)
          ("<" ++ name ++ ">" ++ content ++ "</" ++ name ++ ">") locale
        = (Sum.inr (ih (processedContentOf ctx values content) (some locale)), true)) ∧
    (∀ gh,
      dispatchTag none (some gh) (processedContentOf ctx values content)
          ("<" ++ name ++ ">" ++ content ++ "</" ++ name ++ ">") locale
        = (Sum.inr (gh (processedContentOf ctx values content) (some locale)), true)) ∧
    dispatchTag none none (processedContentOf ctx values content)
        ("<" ++ name ++ ">" ++ content ++ "</" ++ name ++ ">") locale
      = (Sum.inl ("<" ++ name ++ ">" ++ content ++ "</" ++ name ++ ">"), false) := by
  refine ⟨?_, fun ih gh => rfl, fun ih => rfl, fun gh => rfl, rfl⟩
  have h1 : ("<" : String).data = ['<'] := rfl
  have h2 : (">" : String).data = ['>'] := rfl
  have h3 : ("</" : String).data = ['<', '/'] := rfl
  have hdata : (pre ++ "<" ++ name ++ ">" ++ content ++ "</" ++ name ++ ">" ++ post).data
      = pre.data ++ '<' :: (name.data ++ '>' ::
          (content.data ++ '<' :: '/' :: (name.data ++ '>' :: post.data))) := by
    simp [data_append, h1, h2, h3]
  show tagLoopF ctx values components locale
      ((pre ++ "<" ++ name ++ ">" ++ content ++ "</" ++ name ++ ">" ++ post).data.length + 1)
      (pre ++ "<" ++ name ++ ">" ++ content ++ "</" ++ name ++ ">" ++ post).data = _
  rw [hdata]
  rw [tagLoopF_succ_some ctx values components locale _ _
      (pre.data, name, content, post.data)
      (findTag_parts name content post.data pre.data hname hnamew hcontent hpre)]
  rw [tagLoopF_fuel_congr ctx values components locale _ post.data
      (post.data.length + 1) (by simp [List.length_append]; omega) (by omega)]
  rfl

/-- Claim C8 witness: a span with both an inline and a global handler for
tag `b`; the global handler runs first, the inline one wraps its result,
and the surrounding text is kept as string parts. -/
theorem claim_C8_witness :
    tagPass (⟨fun s => s, fun _ => "?"⟩ : TagCtx String)
      (some [("b", TagVal.fn fun s _ => "[" ++ s ++ "]")])
      [("b", TagVal.fn fun s _ => "(" ++ s ++ ")")] "en"
      ("Hello " ++ "<" ++ "b" ++ ">" ++ "world" ++ "</" ++ "b" ++ ">" ++ "!")
      = ([Sum.inl "Hello ", Sum.inr "[(world)]", Sum.inl "!"], true) := by
  rw [(claim_C8 (⟨fun s => s, fun _ => "?"⟩ : TagCtx String)
    (some [("b", TagVal.fn fun s _ => "[" ++ s ++ "]")])
    [("b", TagVal.fn fun s _ => "(" ++ s ++ ")")] "en"
    "Hello " "b" "world" "!" (by decide) (by decide) (by decide) (by decide)).1]
  decide

end TextIntl
